import Mathlib

set_option maxRecDepth 40000

namespace Discollama

/-! Shallow embedding of src/bot.py (1jammer1/OS-discord-bot).  Text is
modelled as `List Char` (Python strings are sequences of code points). -/

/-- Whitespace test used by Python str.strip(), restricted to the ASCII
whitespace characters; the source only ever strips text built from ASCII
punctuation, letters and newlines. -/
def isSpaceChar (c : Char) : Bool :=
  c = ' ' || c = '\t' || c = '\n' || c = '\r' || c = Char.ofNat 11 || c = Char.ofNat 12

/-- Python str.strip(): drop whitespace from both ends. -/
def pyStrip (l : List Char) : List Char :=
  ((l.dropWhile isSpaceChar).reverse.dropWhile isSpaceChar).reverse

/-- Python str.replace(pat, rep): rewrite every non-overlapping occurrence,
scanning left to right.  Fuel recursion; fuel = input length suffices because
every pattern used by the source is nonempty. -/
def pyReplaceFuel (pat rep : List Char) : Nat → List Char → List Char
  | 0, s => s
  | _ + 1, [] => []
  | n + 1, c :: cs =>
    if pat.isPrefixOf (c :: cs) then
      rep ++ pyReplaceFuel pat rep n ((c :: cs).drop pat.length)
    else
      c :: pyReplaceFuel pat rep n cs

def pyReplace (pat rep s : List Char) : List Char :=
  pyReplaceFuel pat rep s.length s

/-- Zero-width space (U+200B) inserted by the mention neutralisation. -/
def zwsp : Char := Char.ofNat 0x200B

/-- Length of the run of ASCII digits at the head of the list. -/
def digitRun (cs : List Char) : Nat := (cs.takeWhile Char.isDigit).length

/-- discord.utils.escape_mentions tries, after an at-sign, the regex
alternatives everyone, here, and an optional exclamation mark or ampersand
followed by 17 to 20 digits (greedy).  Returns the matched group and the rest. -/
def matchMention (cs : List Char) : Option (List Char × List Char) :=
  if "everyone".toList.isPrefixOf cs then some ("everyone".toList, cs.drop 8)
  else if "here".toList.isPrefixOf cs then some ("here".toList, cs.drop 4)
  else
    match cs with
    | [] => none
    | c :: rest =>
      if c = '!' || c = '&' then
        let d := digitRun rest
        if 17 ≤ d then some (c :: rest.take (min d 20), rest.drop (min d 20)) else none
      else
        let d := digitRun cs
        if 17 ≤ d then some (cs.take (min d 20), cs.drop (min d 20)) else none

/-- discord.utils.escape_mentions: re.sub replacing each mention match by
at-sign, zero-width space, matched group.  Fuel recursion (each step consumes
at least one character). -/
def escapeMentionsFuel : Nat → List Char → List Char
  | 0, s => s
  | _ + 1, [] => []
  | n + 1, c :: cs =>
    if c = '@' then
      match matchMention cs with
      | some (g, rest) => '@' :: zwsp :: (g ++ escapeMentionsFuel n rest)
      | none => c :: escapeMentionsFuel n cs
    else
      c :: escapeMentionsFuel n cs

def escapeMentions (s : List Char) : List Char := escapeMentionsFuel s.length s

/-- DiscordResponse.sanitize: strip surrounding whitespace, neutralise
at-everyone and at-here with a zero-width space, escape remaining mentions. -/
def sanitize (s : List Char) : List Char :=
  escapeMentions
    (pyReplace ("@here".toList) ('@' :: zwsp :: "here".toList)
      (pyReplace ("@everyone".toList) ('@' :: zwsp :: "everyone".toList) (pyStrip s)))

def apos : Char := Char.ofNat 39

/-- Placeholder substituted by DiscordResponse.write when sanitize returns the
empty string. -/
def placeholderMsg : List Char :=
  "*I don".toList ++ apos :: "t have anything to say.*".toList

def segLimit : Nat := 2000

def chunkCap : Nat := 10

/-- Tail-recursive scan behind the newline search: the accumulator carries the
index of the last newline seen so far. -/
def lastNlAux : List Char → Nat → Option Nat → Option Nat
  | [], _, acc => acc
  | c :: cs, k, acc => lastNlAux cs (k + 1) (if c = '\n' then some k else acc)

/-- message_remaining.rfind of a newline over the slice from 0 to 2000, as an
Option: the largest index below 2000 holding a newline, if any. -/
def lastNlIdx (r : List Char) : Option Nat := lastNlAux (r.take segLimit) 0 none

/-- split_index computation of DiscordResponse.write: last newline below 2000
if one exists, otherwise 2000, clamped to the remaining length when the
remaining text is short. -/
def splitIndex (r : List Char) : Nat :=
  match lastNlIdx r with
  | some j => j
  | none => if r.length ≤ segLimit then r.length else segLimit

structure StepOut where
  emitted : Option (List Char)
  sep : List Char
  rest : List Char
  stop : Bool

/-- One iteration of the DiscordResponse.write chunking loop on the remaining
text r.  emitted is the chunk sent (none when an empty slice stops the loop
without a send); sep is the separator newline consumed but not sent; rest is
the remaining text afterwards; stop mirrors done/break.  In the branch where
an empty slice is replaced by the whole remaining text, Python also assigns
message_remaining = message_remaining[1:], but done is already True so that
assignment is dead; rest is recorded as [] because the entire remaining text
was sent. -/
def chunkStep (r : List Char) : StepOut :=
  if r.take (splitIndex r) = [] ∧ 0 < r.length ∧ r.length ≤ segLimit then
    { emitted := some r, sep := [], rest := [], stop := true }
  else if r.take (splitIndex r) = [] then
    { emitted := none, sep := [], rest := r, stop := true }
  else if splitIndex r < r.length ∧ r[splitIndex r]? = some '\n' then
    { emitted := some (r.take (splitIndex r)), sep := ['\n'],
      rest := r.drop (splitIndex r + 1), stop := (r.drop (splitIndex r + 1)).isEmpty }
  else
    { emitted := some (r.take (splitIndex r)), sep := [],
      rest := r.drop (splitIndex r), stop := (r.drop (splitIndex r)).isEmpty }

inductive Reason
  | exhausted
  | cap
  | emptySlice
deriving DecidableEq

/-- The chunking loop; fuel counts how many more chunks may be emitted (the
Python counter i allows ten sends before the hard break).  Returns the emitted
chunks paired with their consumed separators, the text never sent, and why the
loop stopped. -/
def writeLoop : Nat → List Char → List (List Char × List Char) × List Char × Reason
  | 0, r => ([], r, Reason.cap)
  | n + 1, r =>
    let st := chunkStep r
    match st.emitted with
    | none => ([], r, Reason.emptySlice)
    | some c =>
      if st.stop then ([(c, st.sep)], [], Reason.exhausted)
      else
        let out := writeLoop n st.rest
        ((c, st.sep) :: out.1, out.2)

/-- The effective text DiscordResponse.write works on: sanitize, with the
placeholder substituted when sanitize is empty. -/
def sanitizedValue (s : List Char) : List Char :=
  let v := sanitize s
  if v = [] then placeholderMsg else v

/-- DiscordResponse.write: texts of length at least 2000 go through the
chunking loop, shorter texts are sent as a single segment. -/
def writeSegments (s : List Char) : List (List Char × List Char) × List Char × Reason :=
  let value := sanitizedValue s
  if segLimit ≤ value.length then writeLoop chunkCap value
  else ([(value, [])], [], Reason.exhausted)

def wsSegs (s : List Char) : List (List Char × List Char) := (writeSegments s).1

def wsLeft (s : List Char) : List Char := (writeSegments s).2.1

def wsReason (s : List Char) : Reason := (writeSegments s).2.2

/-- Concatenation of the emitted segments with every consumed separator
newline re-inserted. -/
def reassemble (segs : List (List Char × List Char)) : List Char :=
  segs.foldr (fun p acc => p.1 ++ (p.2 ++ acc)) []

/-- The chunk the loop body would send for remaining text r. -/
def chunkAt (r : List Char) : Option (List Char) := (chunkStep r).emitted

/-- Remaining-text states visited by the chunking loop. -/
def chunkTrace : Nat → List Char → List (List Char)
  | 0, _ => []
  | n + 1, r =>
    let st := chunkStep r
    r :: (if st.stop then [] else chunkTrace n st.rest)

/-- Remaining-text states visited when writing s (empty when the single-send
path is taken). -/
def traceOf (s : List Char) : List (List Char) :=
  if segLimit ≤ (sanitizedValue s).length then chunkTrace chunkCap (sanitizedValue s) else []

structure Turn where
  role : List Char
  content : List Char
deriving DecidableEq

/-- Python slice content[-m:], applied by save_message when the length exceeds
m.  Note the slice with m = 0 is the whole string, not the empty suffix. -/
def pyTruncate (m : Nat) (msg : List Char) : List Char :=
  if m < msg.length then (if m = 0 then msg else msg.drop (msg.length - m)) else msg

/-- The eviction loop of Bot.save_message: while len(messages) >= k, pop the
oldest.  With k = 0 the Python loop eventually calls pop on an empty list and
raises IndexError; theorems about save_message therefore assume 1 ≤ k. -/
def popWhile (k : Nat) : List Turn → List Turn
  | [] => []
  | t :: ts => if k ≤ (t :: ts).length then popWhile k ts else t :: ts

/-- Bot.save_message acting on one channel value: no-op on whitespace-only
content, otherwise truncate to the per-turn cap m keeping the suffix, evict
from the front while the stored length is at least k, and append. -/
def save_message (k m : Nat) (msgs : List Turn) (msg role : List Char) : List Turn :=
  if pyStrip msg = [] then msgs
  else popWhile k msgs ++ [Turn.mk role (pyTruncate m msg)]

/-- Serialized length json.dumps (ensure_ascii default) assigns to one
character inside a string literal: quote and backslash and the short control
escapes take two characters, other control characters six, ASCII one,
other basic-plane code points six, astral code points twelve. -/
def charJsonLen (c : Char) : Nat :=
  if c = '"' || c = '\\' then 2
  else if c = '\n' || c = '\t' || c = '\r' || c = Char.ofNat 8 || c = Char.ofNat 12 then 2
  else if c.toNat < 32 then 6
  else if c.toNat < 128 then 1
  else if c.toNat < 65536 then 6
  else 12

def escJsonLen (l : List Char) : Nat := (l.map charJsonLen).sum

/-- json.dumps length of one turn dict: the braces, quotes, colons and the two
key names contribute 27 fixed characters. -/
def turnJsonLen (t : Turn) : Nat := 27 + escJsonLen t.role + escJsonLen t.content

/-- json.dumps length of a turn list (default separators): two brackets plus
the entries plus a comma-space between consecutive entries. -/
def jsonLen : List Turn → Nat
  | [] => 2
  | ts => 2 + (ts.map turnJsonLen).sum + 2 * (ts.length - 1)

/-- Context trimming loop of Bot.chat: while the serialized size exceeds the
budget and the list is nonempty, drop the oldest turn and re-serialize. -/
def trimLoop (b : Nat) : List Turn → List Turn
  | [] => []
  | _ :: ms => if b < jsonLen ms then trimLoop b ms else ms

def trimContext (b : Nat) (msgs : List Turn) : List Turn :=
  if b < jsonLen msgs then trimLoop b msgs else msgs

/-- The redis store: one turn list per channel key. -/
def Store : Type := List Char → List Turn

def setStore (ch : List Char) (v : List Turn) (st : Store) : Store :=
  fun c => if c = ch then v else st c

def load_channel (st : Store) (ch : List Char) : List Turn := st ch

/-- Bot.flush_channel: delete the channel key. -/
def flush_channel (ch : List Char) (st : Store) : Store := setStore ch [] st

/-- Bot.save_message at the store level. -/
def saveTo (k m : Nat) (ch msg role : List Char) (st : Store) : Store :=
  setStore ch (save_message k m (st ch) msg role) st

/-- Outcome of the streaming ollama call: it either yields its fragments, or
raises TypeError part-way (the unsupported call shape), or raises some other
error part-way.  Fragments already yielded before an error are discarded by
the handler. -/
inductive StreamOutcome
  | parts (chunks : List (List Char))
  | typeErrorMid (before : List (List Char))
  | otherErrorMid (before : List (List Char))
deriving DecidableEq

/-- Outcome of a single-shot backend call: the extracted content (possibly
empty) or a raised error. -/
inductive CallOutcome
  | ok (content : List Char)
  | failed
deriving DecidableEq

/-- Backend configuration and call outcome for one Bot.chat invocation:
ollama with stream=True (carrying the single-shot outcome used if TypeError
forces the fallback), ollama with stream=False, or the openai-compatible
path. -/
inductive Backend
  | ollamaStream (so : StreamOutcome) (fb : CallOutcome)
  | ollamaSingle (c : CallOutcome)
  | openaiCall (c : CallOutcome)
deriving DecidableEq

def fallbackMsg : List Char := "I am sorry, I am unable to respond at the moment.".toList

def assistantRole : List Char := "assistant".toList

def userRole : List Char := "user".toList

/-- Bot.chat: load the channel, trim to the byte budget ctx*4, call the
backend, append the response as an assistant turn when it is nonempty, return
the response text or the fixed fallback phrase on failure or empty result.
All exception paths of the Python code end in the fallback phrase. -/
def chat (k m ctxLen : Nat) (ch : List Char) (b : Backend) (st : Store) : Store × List Char :=
  let _localMsgs := trimContext (ctxLen * 4) (load_channel st ch)
  match b with
  | Backend.ollamaStream (StreamOutcome.parts cs) _ =>
    let r := cs.flatten
    if r = [] then (st, fallbackMsg) else (saveTo k m ch r assistantRole st, r)
  | Backend.ollamaStream (StreamOutcome.typeErrorMid _) fb =>
    match fb with
    | CallOutcome.failed => (st, fallbackMsg)
    | CallOutcome.ok c => if c = [] then (st, fallbackMsg) else (saveTo k m ch c assistantRole st, c)
  | Backend.ollamaStream (StreamOutcome.otherErrorMid _) _ => (st, fallbackMsg)
  | Backend.ollamaSingle CallOutcome.failed => (st, fallbackMsg)
  | Backend.ollamaSingle (CallOutcome.ok c) =>
    if c = [] then (st, fallbackMsg) else (saveTo k m ch c assistantRole st, c)
  | Backend.openaiCall CallOutcome.failed => (st, fallbackMsg)
  | Backend.openaiCall (CallOutcome.ok c) =>
    if c = [] then (st, fallbackMsg) else (saveTo k m ch c assistantRole st, c)

/-- The backend call failed or produced an empty result. -/
def backendEmptyOrFailed : Backend → Bool
  | Backend.ollamaStream (StreamOutcome.parts cs) _ => cs.flatten.isEmpty
  | Backend.ollamaStream (StreamOutcome.typeErrorMid _) CallOutcome.failed => true
  | Backend.ollamaStream (StreamOutcome.typeErrorMid _) (CallOutcome.ok c) => c.isEmpty
  | Backend.ollamaStream (StreamOutcome.otherErrorMid _) _ => true
  | Backend.ollamaSingle CallOutcome.failed => true
  | Backend.ollamaSingle (CallOutcome.ok c) => c.isEmpty
  | Backend.openaiCall CallOutcome.failed => true
  | Backend.openaiCall (CallOutcome.ok c) => c.isEmpty

inductive ResetReply
  | denied
  | noChannel
  | success
deriving DecidableEq

/-- The seed greeting built by the reset paths. -/
def greetingOf (guild : Option (List Char)) : List Char :=
  "*You joined the chat! - You joined ".toList ++ guild.getD ("this chat".toList) ++ ".*".toList

/-- Bot.reset_command: deny when an admin id is configured and the requester
differs; otherwise flush the channel and seed it with the greeting as an
assistant turn. -/
def reset_command (k m : Nat) (adminId requesterId : List Char) (chan guild : Option (List Char))
    (st : Store) : Store × ResetReply :=
  if adminId ≠ [] ∧ requesterId ≠ adminId then (st, ResetReply.denied)
  else
    match chan with
    | none => (st, ResetReply.noChannel)
    | some ch =>
      (saveTo k m ch (greetingOf guild) assistantRole (flush_channel ch st), ResetReply.success)

inductive Event
  | flushedEv (ch : List Char)
  | savedEv (ch content role : List Char)
  | wroteEv (text : List Char)
deriving DecidableEq

/-- Substring containment, Python `pat in s`. -/
def containsSub (pat : List Char) : List Char → Bool
  | [] => pat.isEmpty
  | c :: cs => pat.isPrefixOf (c :: cs) || containsSub pat cs

/-- Bot configuration as passed to Bot.__init__: chat_max_length k, the
per-turn cap msg_max_chars m, ctx, admin_id, chat_channel_id, and the two
values derived from the Discord client at runtime: the literal mention token
built from the bot user id, and bot_name.title(). -/
structure BotCfg where
  k : Nat
  m : Nat
  ctxLen : Nat
  adminId : List Char
  chatChannelId : List Char
  botMention : List Char
  botTitled : List Char

/-- The fields of an inbound Discord message read by Bot.on_message, plus the
readiness flag and the drawn outcome of the random sampling guard. -/
structure MsgCtx where
  ready : Bool
  hasChannel : Bool
  channelId : List Char
  authorIsSelf : Bool
  isDM : Bool
  mentioned : Bool
  authorBot : Bool
  contentRaw : List Char
  randomSkip : Bool
  authorId : List Char
  authorName : List Char
  guildName : List Char
  msgId : List Char
  timestamp : List Char
  refId : Option (List Char)
  channelName : Option (List Char)

def dmApology : List Char := "I am sorry, I am unable to respond in private messages.".toList

/-- Bot.message: the context formatter around a turn content. -/
def fmtMessage (mc : MsgCtx) (content : List Char) : List Char :=
  let said := match mc.refId with
    | some rid => "replied to ".toList ++ rid
    | none => "said".toList
  let chatName := mc.channelName.getD ("this chat".toList)
  "**(".toList ++ mc.msgId ++ ") at ".toList ++ mc.timestamp ++ " ".toList ++ mc.authorName
    ++ "(".toList ++ mc.authorId ++ ") ".toList ++ said ++ " in ".toList ++ chatName
    ++ "**: ".toList ++ content

def denialText (name : List Char) : List Char :=
  name ++ " tried to reset the chat, but was denied.".toList

def resetWord : List Char := "RESET".toList

/-- The context-save gate of Bot.on_message: not addressed to us, from a bot,
or containing a broadcast mention. -/
def gateOf (mc : MsgCtx) : Bool :=
  !mc.mentioned || mc.authorBot
    || containsSub ("@everyone".toList) mc.contentRaw || containsSub ("@here".toList) mc.contentRaw

/-- The processed content: the bot mention token replaced by the titled bot
name, then stripped. -/
def processedContent (cfg : BotCfg) (mc : MsgCtx) : List Char :=
  pyStrip (pyReplace cfg.botMention cfg.botTitled mc.contentRaw)

/-- Bot.on_message: randomSkip is the outcome of the random sampling guard
(True means the early return for a non-addressed message was taken).  The
event list records, in order, the flush_channel, save_message and
DiscordResponse.write calls performed. -/
def on_message (cfg : BotCfg) (mc : MsgCtx) (b : Backend) (st : Store) : Store × List Event :=
  if !mc.ready then (st, [])
  else if !mc.hasChannel then (st, [])
  else if cfg.chatChannelId ≠ [] ∧ mc.channelId ≠ cfg.chatChannelId then (st, [])
  else if mc.authorIsSelf then (st, [])
  else if mc.isDM then (st, if mc.mentioned then [Event.wroteEv dmApology] else [])
  else
    let st1 := if gateOf mc then saveTo cfg.k cfg.m mc.channelId (fmtMessage mc mc.contentRaw) userRole st else st
    let ev1 : List Event :=
      if gateOf mc then [Event.savedEv mc.channelId (fmtMessage mc mc.contentRaw) userRole] else []
    if gateOf mc && mc.randomSkip then (st1, ev1)
    else
      let content := processedContent cfg mc
      if content = [] then (st1, ev1)
      else if content = resetWord ∧ mc.authorId = cfg.adminId then
        let st2 := flush_channel mc.channelId st1
        let st3 := saveTo cfg.k cfg.m mc.channelId (greetingOf (some mc.guildName)) assistantRole st2
        (st3, ev1 ++ [Event.flushedEv mc.channelId,
          Event.savedEv mc.channelId (greetingOf (some mc.guildName)) assistantRole])
      else
        let content2 := if content = resetWord ∧ mc.authorId ≠ cfg.adminId
          then denialText mc.authorName else content
        let st2 := saveTo cfg.k cfg.m mc.channelId (fmtMessage mc content2) userRole st1
        let res := chat cfg.k cfg.m cfg.ctxLen mc.channelId b st2
        (res.1, ev1 ++ [Event.savedEv mc.channelId (fmtMessage mc content2) userRole,
          Event.wroteEv res.2])

/-- N appends in sequence, each pair being content and role. -/
def appendAll (k m : Nat) (msgs : List Turn) (ps : List (List Char × List Char)) : List Turn :=
  ps.foldl (fun s p => save_message k m s p.1 p.2) msgs

/-- The n most recent elements of a list. -/
def lastN (n : Nat) (l : List Turn) : List Turn := l.drop (l.length - n)

/-- Family of concrete chunker inputs: 1999 letters, two consecutive newlines,
then n letters.  Already sanitized (stripped, no at-sign). -/
def ceText (n : Nat) : List Char :=
  List.replicate 1999 'a' ++ '\n' :: '\n' :: List.replicate n 'b'

/-- The remaining text after the first chunk of ceText n is cut: a leading
newline followed by n letters. -/
def ceRest (n : Nat) : List Char := '\n' :: List.replicate n 'b'

/-- An empty store, for concrete witnesses. -/
def emptyStore : Store := fun _ => []

/-- Three concrete appends for the eviction counterexample. -/
def cePairs : List (List Char × List Char) :=
  [("a".toList, "user".toList), ("b".toList, "user".toList), ("c".toList, "user".toList)]

/-- A concrete bot configuration for witnesses: admin 42, no channel filter. -/
def ceCfg : BotCfg :=
  { k := 500, m := 1000, ctxLen := 2048, adminId := "42".toList,
    chatChannelId := [], botMention := "<@9>".toList, botTitled := "Bot".toList }

/-- A concrete inbound guild message for witnesses: user 7 sends RESET while
mentioning the bot through a reply. -/
def ceMsg : MsgCtx :=
  { ready := true, hasChannel := true, channelId := "1".toList, authorIsSelf := false,
    isDM := false, mentioned := true, authorBot := false, contentRaw := "RESET".toList,
    randomSkip := false, authorId := "7".toList, authorName := "eve".toList,
    guildName := "g".toList, msgId := "5".toList, timestamp := "t".toList,
    refId := none, channelName := none }

/-! ### Helper lemmas: sanitize acts as the identity on at-sign-free stripped text -/

theorem dropWhile_eq_self_of_head (p : Char → Bool) (l : List Char)
    (h : ∀ c, l.head? = some c → p c = false) : l.dropWhile p = l := by
  cases l with
  | nil => rfl
  | cons a t =>
    have ha : p a = false := h a rfl
    simp [List.dropWhile_cons, ha]

theorem pyStrip_eq_self (l : List Char)
    (h1 : ∀ c, l.head? = some c → isSpaceChar c = false)
    (h2 : ∀ c, l.getLast? = some c → isSpaceChar c = false) : pyStrip l = l := by
  unfold pyStrip
  rw [dropWhile_eq_self_of_head _ _ h1]
  rw [dropWhile_eq_self_of_head _ _ (fun c hc => h2 c (by rwa [List.head?_reverse] at hc))]
  exact List.reverse_reverse l

theorem pyReplaceFuel_eq_self (t rep : List Char) :
    ∀ (n : Nat) (s : List Char), (∀ c ∈ s, c ≠ '@') →
      pyReplaceFuel ('@' :: t) rep n s = s := by
  intro n
  induction n with
  | zero => intro s _; rfl
  | succ m ih =>
    intro s hs
    cases s with
    | nil => rfl
    | cons c cs =>
      have hc : c ≠ '@' := hs c (List.mem_cons_self c cs)
      have hpre : ('@' :: t).isPrefixOf (c :: cs) = false := by
        rw [List.isPrefixOf_cons₂]
        simp [Ne.symm hc]
      simp only [pyReplaceFuel, hpre]
      simp only [Bool.false_eq_true, if_false]
      exact congrArg (c :: ·) (ih cs (fun d hd => hs d (List.mem_cons_of_mem c hd)))

theorem pyReplace_eq_self (t rep s : List Char) (hs : ∀ c ∈ s, c ≠ '@') :
    pyReplace ('@' :: t) rep s = s :=
  pyReplaceFuel_eq_self t rep s.length s hs

theorem escapeMentionsFuel_eq_self :
    ∀ (n : Nat) (s : List Char), (∀ c ∈ s, c ≠ '@') → escapeMentionsFuel n s = s := by
  intro n
  induction n with
  | zero => intro s _; rfl
  | succ m ih =>
    intro s hs
    cases s with
    | nil => rfl
    | cons c cs =>
      have hc : c ≠ '@' := hs c (List.mem_cons_self c cs)
      simp only [escapeMentionsFuel, hc, if_false]
      exact congrArg (c :: ·) (ih cs (fun d hd => hs d (List.mem_cons_of_mem c hd)))

theorem sanitize_eq_self (s : List Char)
    (h1 : ∀ c, s.head? = some c → isSpaceChar c = false)
    (h2 : ∀ c, s.getLast? = some c → isSpaceChar c = false)
    (hat : ∀ c ∈ s, c ≠ '@') : sanitize s = s := by
  unfold sanitize escapeMentions
  rw [pyStrip_eq_self s h1 h2]
  rw [show ("@everyone".toList) = '@' :: ("everyone".toList) from rfl]
  rw [pyReplace_eq_self _ _ s hat]
  rw [show ("@here".toList) = '@' :: ("here".toList) from rfl]
  rw [pyReplace_eq_self _ _ s hat]
  exact escapeMentionsFuel_eq_self s.length s hat

/-! ### Helper lemmas: the newline scan -/

theorem lastNlAux_append (l1 l2 : List Char) :
    ∀ (k : Nat) (acc : Option Nat),
      lastNlAux (l1 ++ l2) k acc = lastNlAux l2 (k + l1.length) (lastNlAux l1 k acc) := by
  induction l1 with
  | nil => intro k acc; simp [lastNlAux]
  | cons c cs ih =>
    intro k acc
    simp only [List.cons_append, lastNlAux, List.length_cons, List.append_eq]
    rw [ih]
    have he : k + 1 + cs.length = k + (cs.length + 1) := by omega
    rw [he]

theorem lastNlAux_replicate (a : Char) (ha : a ≠ '\n') :
    ∀ (n k : Nat) (acc : Option Nat), lastNlAux (List.replicate n a) k acc = acc := by
  intro n
  induction n with
  | zero => intro k acc; rfl
  | succ m ih =>
    intro k acc
    rw [List.replicate_succ]
    simp only [lastNlAux, ha, if_false]
    exact ih _ _

theorem lastNlAux_some (l : List Char) :
    ∀ (k : Nat) (acc : Option Nat) (j : Nat), lastNlAux l k acc = some j →
      acc = some j ∨ (k ≤ j ∧ j - k < l.length ∧ l[j - k]? = some '\n') := by
  induction l with
  | nil => intro k acc j h; exact Or.inl h
  | cons c cs ih =>
    intro k acc j h
    simp only [lastNlAux] at h
    rcases ih (k + 1) _ j h with hacc | ⟨hk, hlt, hget⟩
    · by_cases hc : c = '\n'
      · rw [if_pos hc] at hacc
        right
        have hj : j = k := by injection hacc with e; omega
        subst hj
        refine ⟨le_refl j, by simp, ?_⟩
        simp [Nat.sub_self, hc]
      · rw [if_neg hc] at hacc
        exact Or.inl hacc
    · right
      refine ⟨by omega, by simp; omega, ?_⟩
      have he : j - k = (j - (k + 1)) + 1 := by omega
      rw [he, List.getElem?_cons_succ]
      exact hget

theorem lastNlIdx_some (r : List Char) (j : Nat) (h : lastNlIdx r = some j) :
    j < segLimit ∧ r[j]? = some '\n' := by
  unfold lastNlIdx at h
  rcases lastNlAux_some _ 0 none j h with hacc | ⟨_, hlt, hget⟩
  · exact absurd hacc (by simp)
  · rw [Nat.sub_zero] at hlt hget
    rw [List.length_take] at hlt
    have hj : j < segLimit := lt_of_lt_of_le hlt (min_le_left _ _)
    rw [List.getElem?_take, if_pos hj] at hget
    exact ⟨hj, hget⟩

/-! ### Helper lemmas: one chunking step -/

theorem splitIndex_le (r : List Char) : splitIndex r ≤ segLimit := by
  unfold splitIndex
  split
  · next j hj => exact le_of_lt (lastNlIdx_some r j hj).1
  · split
    · next hle => exact hle
    · exact le_refl _

theorem chunkStep_spec (r : List Char) (c : List Char)
    (h : (chunkStep r).emitted = some c) :
    c ++ (chunkStep r).sep ++ (chunkStep r).rest = r := by
  by_cases h1 : r.take (splitIndex r) = [] ∧ 0 < r.length ∧ r.length ≤ segLimit
  · simp only [chunkStep, if_pos h1] at h ⊢
    obtain rfl := Option.some.inj h
    simp
  · by_cases h2 : r.take (splitIndex r) = []
    · simp only [chunkStep, if_neg h1, if_pos h2] at h
      exact absurd h (by simp)
    · by_cases h3 : splitIndex r < r.length ∧ r[splitIndex r]? = some '\n'
      · simp only [chunkStep, if_neg h1, if_neg h2, if_pos h3] at h ⊢
        obtain rfl := Option.some.inj h
        rw [List.append_assoc]
        have hd : r.drop (splitIndex r) = '\n' :: r.drop (splitIndex r + 1) := by
          rw [List.drop_eq_getElem_cons h3.1]
          have hv : r[splitIndex r] = '\n' := by
            have hg := h3.2
            rwa [List.getElem?_eq_getElem h3.1, Option.some_inj] at hg
          rw [hv]
        calc r.take (splitIndex r) ++ ('\n' :: r.drop (splitIndex r + 1))
            = r.take (splitIndex r) ++ r.drop (splitIndex r) := by rw [hd]
          _ = r := List.take_append_drop _ _
      · simp only [chunkStep, if_neg h1, if_neg h2, if_neg h3] at h ⊢
        obtain rfl := Option.some.inj h
        rw [List.append_assoc, List.nil_append]
        exact List.take_append_drop _ _

theorem chunkStep_len (r : List Char) (c : List Char)
    (h : (chunkStep r).emitted = some c) : c.length ≤ segLimit := by
  by_cases h1 : r.take (splitIndex r) = [] ∧ 0 < r.length ∧ r.length ≤ segLimit
  · simp only [chunkStep, if_pos h1] at h
    obtain rfl := Option.some.inj h
    exact h1.2.2
  · by_cases h2 : r.take (splitIndex r) = []
    · simp only [chunkStep, if_neg h1, if_pos h2] at h
      exact absurd h (by simp)
    · by_cases h3 : splitIndex r < r.length ∧ r[splitIndex r]? = some '\n'
      · simp only [chunkStep, if_neg h1, if_neg h2, if_pos h3] at h
        obtain rfl := Option.some.inj h
        rw [List.length_take]
        exact le_trans (min_le_left _ _) (splitIndex_le r)
      · simp only [chunkStep, if_neg h1, if_neg h2, if_neg h3] at h
        obtain rfl := Option.some.inj h
        rw [List.length_take]
        exact le_trans (min_le_left _ _) (splitIndex_le r)

theorem chunkStep_stop_rest (r : List Char) (c : List Char)
    (h : (chunkStep r).emitted = some c) (hs : (chunkStep r).stop = true) :
    (chunkStep r).rest = [] := by
  by_cases h1 : r.take (splitIndex r) = [] ∧ 0 < r.length ∧ r.length ≤ segLimit
  · simp only [chunkStep, if_pos h1]
  · by_cases h2 : r.take (splitIndex r) = []
    · simp only [chunkStep, if_neg h1, if_pos h2] at h
      exact absurd h (by simp)
    · by_cases h3 : splitIndex r < r.length ∧ r[splitIndex r]? = some '\n'
      · simp only [chunkStep, if_neg h1, if_neg h2, if_pos h3] at hs ⊢
        rwa [List.isEmpty_iff] at hs
      · simp only [chunkStep, if_neg h1, if_neg h2, if_neg h3] at hs ⊢
        rwa [List.isEmpty_iff] at hs

/-! ### Helper lemmas: the chunking loop -/

theorem writeLoop_reassemble (fuel : Nat) :
    ∀ r : List Char,
      reassemble (writeLoop fuel r).1 ++ (writeLoop fuel r).2.1 = r := by
  induction fuel with
  | zero => intro r; simp [writeLoop, reassemble]
  | succ n ih =>
    intro r
    cases hem : (chunkStep r).emitted with
    | none => simp [writeLoop, hem, reassemble]
    | some c =>
      cases hstop : (chunkStep r).stop with
      | true =>
        have hrest : (chunkStep r).rest = [] := chunkStep_stop_rest r c hem hstop
        have hspec := chunkStep_spec r c hem
        rw [hrest, List.append_nil] at hspec
        simp [writeLoop, hem, hstop, reassemble, hspec]
      | false =>
        have hspec := chunkStep_spec r c hem
        simp only [writeLoop, hem, hstop, Bool.false_eq_true, if_false, reassemble,
          List.foldr_cons, List.append_assoc]
        rw [← reassemble]
        rw [ih (chunkStep r).rest]
        simpa [List.append_assoc] using hspec

theorem writeLoop_left_reason (fuel : Nat) :
    ∀ r : List Char, (writeLoop fuel r).2.1 ≠ [] →
      (writeLoop fuel r).2.2 = Reason.cap ∨ (writeLoop fuel r).2.2 = Reason.emptySlice := by
  induction fuel with
  | zero => intro r _; exact Or.inl rfl
  | succ n ih =>
    intro r hne
    cases hem : (chunkStep r).emitted with
    | none => simp [writeLoop, hem]
    | some c =>
      cases hstop : (chunkStep r).stop with
      | true => simp [writeLoop, hem, hstop] at hne
      | false =>
        simp only [writeLoop, hem, hstop, Bool.false_eq_true, if_false] at hne ⊢
        exact ih _ hne

theorem writeLoop_count (fuel : Nat) :
    ∀ r : List Char, (writeLoop fuel r).1.length ≤ fuel := by
  induction fuel with
  | zero => intro r; simp [writeLoop]
  | succ n ih =>
    intro r
    cases hem : (chunkStep r).emitted with
    | none => simp [writeLoop, hem]
    | some c =>
      cases hstop : (chunkStep r).stop with
      | true => simp [writeLoop, hem, hstop]
      | false =>
        simp only [writeLoop, hem, hstop, Bool.false_eq_true, if_false, List.length_cons]
        exact Nat.succ_le_succ (ih _)

theorem writeLoop_chunk_len (fuel : Nat) :
    ∀ r : List Char, ∀ p ∈ (writeLoop fuel r).1, p.1.length ≤ segLimit := by
  induction fuel with
  | zero => intro r p hp; simp [writeLoop] at hp
  | succ n ih =>
    intro r p hp
    cases hem : (chunkStep r).emitted with
    | none => simp [writeLoop, hem] at hp
    | some c =>
      cases hstop : (chunkStep r).stop with
      | true =>
        simp only [writeLoop, hem, hstop, if_true, List.mem_singleton] at hp
        subst hp
        exact chunkStep_len r c hem
      | false =>
        simp only [writeLoop, hem, hstop, Bool.false_eq_true, if_false, List.mem_cons] at hp
        rcases hp with hp | hp
        · subst hp
          exact chunkStep_len r c hem
        · exact ih _ p hp

/-- Whenever the last window newline sits at a positive offset, the step cuts
exactly there. -/
theorem chunkAt_newline (r : List Char) (j : Nat) (h : lastNlIdx r = some j) (hj : 0 < j) :
    chunkAt r = some (r.take j) := by
  have hnl := (lastNlIdx_some r j h).2
  have hjr : j < r.length := by
    by_contra hge
    rw [List.getElem?_eq_none (by omega)] at hnl
    exact Option.noConfusion hnl
  have hsplit : splitIndex r = j := by unfold splitIndex; rw [h]
  have hne : r.take j ≠ [] := by
    rw [Ne, List.take_eq_nil_iff]
    push_neg
    constructor
    · omega
    · intro hr
      rw [hr] at hjr
      simp at hjr
  unfold chunkAt chunkStep
  rw [hsplit]
  rw [if_neg (by intro hand; exact hne hand.1)]
  rw [if_neg hne]
  split_ifs <;> rfl

/-! ### Concrete chunker runs on the ceText family -/

theorem replicateA_ne_nil : List.replicate 1999 'a' ≠ ([] : List Char) := by
  intro h
  have hlen := congrArg List.length h
  rw [List.length_replicate, List.length_nil] at hlen
  omega

theorem ceText_length (n : Nat) : (ceText n).length = 2001 + n := by
  rw [ceText, List.length_append, List.length_replicate, List.length_cons, List.length_cons,
    List.length_replicate]
  omega

theorem ceRest_length (n : Nat) : (ceRest n).length = n + 1 := by
  rw [ceRest, List.length_cons, List.length_replicate]

theorem sanitize_ceText (n : Nat) (hn : 0 < n) : sanitize (ceText n) = ceText n := by
  apply sanitize_eq_self
  · intro c hc
    rw [ceText] at hc
    rw [List.head?_append, List.head?_replicate] at hc
    rw [if_neg (by omega : ¬(1999 = 0))] at hc
    obtain rfl := Option.some.inj hc
    decide
  · intro c hc
    obtain ⟨m, rfl⟩ : ∃ m, n = m + 1 := ⟨n - 1, by omega⟩
    rw [ceText] at hc
    rw [List.getLast?_append, List.getLast?_cons_cons, List.replicate_succ,
      List.getLast?_cons_cons, ← List.replicate_succ, List.getLast?_replicate] at hc
    rw [if_neg (by omega : ¬(m + 1 = 0))] at hc
    obtain rfl := Option.some.inj hc
    decide
  · intro c hc
    rw [ceText, List.mem_append] at hc
    rcases hc with hc | hc
    · obtain rfl := List.eq_of_mem_replicate hc
      decide
    · rcases List.mem_cons.1 hc with rfl | hc
      · decide
      · rcases List.mem_cons.1 hc with rfl | hc
        · decide
        · obtain rfl := List.eq_of_mem_replicate hc
          decide

theorem sanitizedValue_ceText (n : Nat) (hn : 0 < n) : sanitizedValue (ceText n) = ceText n := by
  unfold sanitizedValue
  rw [sanitize_ceText n hn]
  rw [if_neg]
  intro h
  have hlen := congrArg List.length h
  rw [ceText_length, List.length_nil] at hlen
  omega

theorem ceText_take_segLimit (n : Nat) :
    (ceText n).take segLimit = List.replicate 1999 'a' ++ ['\n'] := by
  rw [ceText, List.take_append_eq_append_take, List.length_replicate]
  rw [List.take_of_length_le (by rw [List.length_replicate]; decide)]
  congr 1

theorem lastNlIdx_ceText (n : Nat) : lastNlIdx (ceText n) = some 1999 := by
  unfold lastNlIdx
  rw [ceText_take_segLimit, lastNlAux_append]
  rw [lastNlAux_replicate 'a' (by decide), List.length_replicate]
  simp [lastNlAux]

theorem splitIndex_ceText (n : Nat) : splitIndex (ceText n) = 1999 := by
  unfold splitIndex
  rw [lastNlIdx_ceText]

theorem ceText_take_1999 (n : Nat) : (ceText n).take 1999 = List.replicate 1999 'a' := by
  rw [ceText, List.take_append_eq_append_take, List.length_replicate]
  rw [List.take_of_length_le (by rw [List.length_replicate])]
  simp

theorem ceText_get_1999 (n : Nat) : (ceText n)[1999]? = some '\n' := by
  rw [ceText, List.getElem?_append_right (by rw [List.length_replicate])]
  rw [List.length_replicate]
  simp

theorem ceText_drop_2000 (n : Nat) : (ceText n).drop 2000 = ceRest n := by
  rw [ceText, List.drop_append_eq_append_drop]
  rw [List.drop_eq_nil_of_le (by rw [List.length_replicate]; omega)]
  rw [List.length_replicate]
  rw [show (2000 : Nat) - 1999 = 0 + 1 from rfl, List.drop_succ_cons, List.drop_zero]
  rw [List.nil_append, ceRest]

theorem chunkStep_ceText (n : Nat) :
    chunkStep (ceText n) =
      { emitted := some (List.replicate 1999 'a'), sep := ['\n'],
        rest := ceRest n, stop := false } := by
  unfold chunkStep
  rw [splitIndex_ceText, ceText_take_1999]
  rw [if_neg (fun hand => replicateA_ne_nil hand.1)]
  rw [if_neg replicateA_ne_nil]
  rw [if_pos ⟨by rw [ceText_length]; omega, ceText_get_1999 n⟩]
  rw [show (1999 : Nat) + 1 = 2000 from rfl, ceText_drop_2000]
  have hie : (ceRest n).isEmpty = false := by rw [ceRest]; rfl
  rw [hie]

theorem lastNlIdx_ceRest (n : Nat) : lastNlIdx (ceRest n) = some 0 := by
  unfold lastNlIdx
  rw [ceRest, show segLimit = 1999 + 1 from rfl, List.take_succ_cons, List.take_replicate]
  simp only [lastNlAux, if_pos rfl]
  exact lastNlAux_replicate 'b' (by decide) _ _ _

theorem splitIndex_ceRest (n : Nat) : splitIndex (ceRest n) = 0 := by
  unfold splitIndex
  rw [lastNlIdx_ceRest]

theorem chunkStep_ceRest_small (n : Nat) (h : n + 1 ≤ segLimit) :
    chunkStep (ceRest n) = { emitted := some (ceRest n), sep := [], rest := [], stop := true } := by
  unfold chunkStep
  rw [splitIndex_ceRest, List.take_zero]
  rw [if_pos ⟨rfl, by rw [ceRest_length]; omega, by rw [ceRest_length]; omega⟩]

theorem chunkStep_ceRest_big (n : Nat) (h : segLimit < n + 1) :
    chunkStep (ceRest n) = { emitted := none, sep := [], rest := ceRest n, stop := true } := by
  unfold chunkStep
  rw [splitIndex_ceRest, List.take_zero]
  rw [if_neg (fun hand => by rw [ceRest_length] at hand; omega)]
  rw [if_pos rfl]

theorem writeLoop_succ_continue (n : Nat) (r c : List Char)
    (hem : (chunkStep r).emitted = some c) (hstop : (chunkStep r).stop = false) :
    writeLoop (n + 1) r =
      ((c, (chunkStep r).sep) :: (writeLoop n (chunkStep r).rest).1,
        (writeLoop n (chunkStep r).rest).2) := by
  simp [writeLoop, hem, hstop]

theorem writeLoop_succ_stop (n : Nat) (r c : List Char)
    (hem : (chunkStep r).emitted = some c) (hstop : (chunkStep r).stop = true) :
    writeLoop (n + 1) r = ([(c, (chunkStep r).sep)], [], Reason.exhausted) := by
  simp [writeLoop, hem, hstop]

theorem writeLoop_succ_none (n : Nat) (r : List Char)
    (hem : (chunkStep r).emitted = none) :
    writeLoop (n + 1) r = ([], r, Reason.emptySlice) := by
  simp [writeLoop, hem]

theorem writeSegments_ceBig :
    writeSegments (ceText 2500) =
      ([(List.replicate 1999 'a', ['\n'])], ceRest 2500, Reason.emptySlice) := by
  unfold writeSegments
  rw [sanitizedValue_ceText 2500 (by omega)]
  rw [if_pos (by rw [ceText_length]; decide)]
  rw [show chunkCap = 9 + 1 from rfl]
  rw [writeLoop_succ_continue 9 _ _ (by rw [chunkStep_ceText]) (by rw [chunkStep_ceText])]
  rw [chunkStep_ceText]
  rw [show (9 : Nat) = 8 + 1 from rfl]
  rw [writeLoop_succ_none 8 _ (by rw [chunkStep_ceRest_big 2500 (by decide)])]

theorem writeSegments_ceSmall :
    writeSegments (ceText 100) =
      ([(List.replicate 1999 'a', ['\n']), (ceRest 100, [])], [], Reason.exhausted) := by
  unfold writeSegments
  rw [sanitizedValue_ceText 100 (by omega)]
  rw [if_pos (by rw [ceText_length]; decide)]
  rw [show chunkCap = 9 + 1 from rfl]
  rw [writeLoop_succ_continue 9 _ _ (by rw [chunkStep_ceText]) (by rw [chunkStep_ceText])]
  rw [chunkStep_ceText]
  rw [show (9 : Nat) = 8 + 1 from rfl]
  rw [writeLoop_succ_stop 8 _ _ (by rw [chunkStep_ceRest_small 100 (by decide)])
    (by rw [chunkStep_ceRest_small 100 (by decide)])]
  rw [chunkStep_ceRest_small 100 (by decide)]

theorem traceOf_ceSmall : traceOf (ceText 100) = [ceText 100, ceRest 100] := by
  unfold traceOf
  rw [sanitizedValue_ceText 100 (by omega)]
  rw [if_pos (by rw [ceText_length]; decide)]
  rw [show chunkCap = 9 + 1 from rfl]
  unfold chunkTrace
  rw [chunkStep_ceText]
  simp only [Bool.false_eq_true, if_false]
  rw [show (9 : Nat) = 8 + 1 from rfl]
  unfold chunkTrace
  rw [chunkStep_ceRest_small 100 (by decide)]
  rfl

/-! ### Claims C1 and C2: the chunker -/

/-- Claim C1, counterexample: for the input of 1999 letters, two newlines and
2500 letters, the loop stops because of an empty slice (not the ten-segment
cap), yet the concatenation of the emitted segments with re-inserted
separators does not reconstruct the sanitized input: 2501 characters are
silently dropped. -/
theorem c1_claim_counterexample :
    wsReason (ceText 2500) ≠ Reason.cap ∧
    reassemble (wsSegs (ceText 2500)) ≠ sanitizedValue (ceText 2500) := by
  constructor
  · rw [wsReason, writeSegments_ceBig]
    intro h
    exact Reason.noConfusion h
  · rw [wsSegs, writeSegments_ceBig, sanitizedValue_ceText 2500 (by omega)]
    intro h
    simp only [reassemble, List.foldr_cons, List.foldr_nil, List.append_nil] at h
    rw [ceText] at h
    have h2 := List.append_cancel_left h
    injection h2 with _ h3
    exact List.noConfusion h3

/-- Claim C1 (amended): concatenating the emitted segments with every consumed
separator newline re-inserted, followed by the dropped remainder, reconstructs
the sanitized input exactly; and text is dropped only when the loop stopped
because of the 10-segment cap or because an empty slice was produced. -/
theorem c1_chunker_reconstruction (s : List Char) :
    reassemble (wsSegs s) ++ wsLeft s = sanitizedValue s ∧
    (wsLeft s ≠ [] → wsReason s = Reason.cap ∨ wsReason s = Reason.emptySlice) := by
  by_cases hlen : segLimit ≤ (sanitizedValue s).length
  · have he : writeSegments s = writeLoop chunkCap (sanitizedValue s) := by
      simp only [writeSegments, if_pos hlen]
    rw [wsSegs, wsLeft, wsReason, he]
    exact ⟨writeLoop_reassemble chunkCap (sanitizedValue s),
      writeLoop_left_reason chunkCap (sanitizedValue s)⟩
  · have he : writeSegments s = ([(sanitizedValue s, [])], [], Reason.exhausted) := by
      simp only [writeSegments, if_neg hlen]
    rw [wsSegs, wsLeft, wsReason, he]
    constructor
    · simp only [reassemble, List.foldr_cons, List.foldr_nil, List.append_nil]
    · intro h
      exact absurd rfl h

/-- Witness for C1: on the counterexample input the reconstruction-with-
remainder equation holds and the nonempty remainder forces a cap or
empty-slice stop. -/
theorem c1_chunker_reconstruction_witness :
    (reassemble (wsSegs (ceText 2500)) ++ wsLeft (ceText 2500) = sanitizedValue (ceText 2500)) ∧
    (wsReason (ceText 2500) = Reason.cap ∨ wsReason (ceText 2500) = Reason.emptySlice) :=
  ⟨(c1_chunker_reconstruction (ceText 2500)).1,
   (c1_chunker_reconstruction (ceText 2500)).2 (by
     rw [wsLeft, writeSegments_ceBig, ceRest]
     exact List.cons_ne_nil _ _)⟩

/-- Claim C2, counterexample: for the input of 1999 letters, two newlines and
100 letters, the loop visits a remaining text whose 2000-character window
contains a newline (at offset 0), yet the emitted chunk is the entire
remaining text, not the slice ending at that newline. -/
theorem c2_claim_counterexample :
    ceRest 100 ∈ traceOf (ceText 100) ∧
    lastNlIdx (ceRest 100) = some 0 ∧
    chunkAt (ceRest 100) ≠ some ((ceRest 100).take 0) := by
  refine ⟨?_, lastNlIdx_ceRest 100, ?_⟩
  · rw [traceOf_ceSmall]
    exact List.mem_cons_of_mem _ (List.mem_cons_self _ _)
  · rw [chunkAt, chunkStep_ceRest_small 100 (by decide), List.take_zero]
    intro h
    have h2 := Option.some.inj h
    rw [ceRest] at h2
    exact List.noConfusion h2

/-- Claim C2 (amended): the chunker emits at most 10 segments, every emitted
segment has length at most 2000, and whenever the last newline of the current
2000-character window sits at a positive offset the cut is made exactly there;
when that newline sits at offset 0 the empty slice is replaced by the whole
remaining text (sent whole if it fits, loop stopped otherwise). -/
theorem c2_chunker_bounds (s : List Char) :
    (wsSegs s).length ≤ chunkCap ∧
    (∀ p ∈ wsSegs s, p.1.length ≤ segLimit) ∧
    (∀ r ∈ traceOf s, ∀ j, lastNlIdx r = some j → 0 < j → chunkAt r = some (r.take j)) := by
  by_cases hlen : segLimit ≤ (sanitizedValue s).length
  · have he : writeSegments s = writeLoop chunkCap (sanitizedValue s) := by
      simp only [writeSegments, if_pos hlen]
    refine ⟨?_, ?_, fun r _ j hj hpos => chunkAt_newline r j hj hpos⟩
    · rw [wsSegs, he]
      exact writeLoop_count chunkCap _
    · rw [wsSegs, he]
      exact writeLoop_chunk_len chunkCap _
  · have he : writeSegments s = ([(sanitizedValue s, [])], [], Reason.exhausted) := by
      simp only [writeSegments, if_neg hlen]
    refine ⟨?_, ?_, fun r _ j hj hpos => chunkAt_newline r j hj hpos⟩
    · rw [wsSegs, he, List.length_singleton]
      decide
    · rw [wsSegs, he]
      intro p hp
      rw [List.mem_singleton] at hp
      subst hp
      show (sanitizedValue s).length ≤ segLimit
      omega

/-- Witness for C2: on the two-chunk input the segment count bound, the
segment length bound at the first emitted segment, and the positive-offset
newline cut at the first visited remaining text, all given by the theorem. -/
theorem c2_chunker_bounds_witness :
    (wsSegs (ceText 100)).length ≤ chunkCap ∧
    (List.replicate 1999 'a').length ≤ segLimit ∧
    chunkAt (ceText 100) = some ((ceText 100).take 1999) :=
  ⟨(c2_chunker_bounds (ceText 100)).1,
   (c2_chunker_bounds (ceText 100)).2.1 (List.replicate 1999 'a', ['\n']) (by
     rw [wsSegs, writeSegments_ceSmall]
     exact List.mem_cons_self _ _),
   (c2_chunker_bounds (ceText 100)).2.2 (ceText 100) (by
     rw [traceOf_ceSmall]
     exact List.mem_cons_self _ _) 1999 (lastNlIdx_ceText 100) (by omega)⟩

/-! ### Helper lemmas: the session store -/

theorem lastN_length_le (k : Nat) (l : List Turn) : (lastN k l).length ≤ k := by
  rw [lastN, List.length_drop]
  omega

theorem lastN_of_length_le (k : Nat) (l : List Turn) (h : l.length ≤ k) : lastN k l = l := by
  rw [lastN, Nat.sub_eq_zero_of_le h, List.drop_zero]

theorem lastN_append_lastN (k : Nat) (a b : List Turn) :
    lastN k (lastN k a ++ b) = lastN k (a ++ b) := by
  unfold lastN
  have hd : List.drop (a.length - k) a ++ b = List.drop (a.length - k) (a ++ b) := by
    rw [List.drop_append_eq_append_drop]
    rw [Nat.sub_eq_zero_of_le (Nat.sub_le _ _), List.drop_zero]
  rw [hd, List.drop_drop]
  congr 1
  simp only [List.length_drop, List.length_append]
  omega

theorem popWhile_of_lt (k : Nat) (l : List Turn) (h : l.length < k) : popWhile k l = l := by
  cases l with
  | nil => rfl
  | cons t ts =>
    rw [popWhile, if_neg (by omega)]

theorem popWhile_of_eq (k : Nat) (t : Turn) (ts : List Turn) (h : (t :: ts).length = k) :
    popWhile k (t :: ts) = ts := by
  rw [popWhile, if_pos (by omega)]
  apply popWhile_of_lt
  rw [List.length_cons] at h
  omega

theorem save_message_eq_lastN (k m : Nat) (s : List Turn) (msg role : List Char)
    (hk : 1 ≤ k) (hs : s.length ≤ k) (hmsg : pyStrip msg ≠ []) :
    save_message k m s msg role = lastN k (s ++ [Turn.mk role (pyTruncate m msg)]) := by
  rw [save_message, if_neg hmsg]
  rcases Nat.lt_or_ge s.length k with hlt | hge
  · rw [popWhile_of_lt k s hlt]
    rw [lastN_of_length_le _ _ (by rw [List.length_append, List.length_singleton]; omega)]
  · have heq : s.length = k := le_antisymm hs hge
    cases s with
    | nil =>
      rw [List.length_nil] at heq
      omega
    | cons t ts =>
      rw [popWhile_of_eq k t ts heq]
      rw [lastN, List.length_append, List.length_singleton, List.cons_append]
      rw [heq]
      have h1 : k + 1 - k = 1 := by omega
      rw [h1]
      rfl

theorem appendAll_eq_lastN (k m : Nat) (hk : 1 ≤ k) :
    ∀ (ps : List (List Char × List Char)) (s : List Turn), s.length ≤ k →
      (∀ p ∈ ps, pyStrip p.1 ≠ []) →
      appendAll k m s ps = lastN k (s ++ ps.map (fun p => Turn.mk p.2 (pyTruncate m p.1))) := by
  intro ps
  induction ps with
  | nil =>
    intro s hs _
    simp only [appendAll, List.foldl_nil, List.map_nil, List.append_nil]
    exact (lastN_of_length_le k s hs).symm
  | cons p ps ih =>
    intro s hs hne
    have hp := hne p (List.mem_cons_self _ _)
    simp only [appendAll, List.foldl_cons]
    rw [← appendAll]
    rw [save_message_eq_lastN k m s p.1 p.2 hk hs hp]
    rw [ih _ (lastN_length_le _ _) (fun q hq => hne q (List.mem_cons_of_mem _ hq))]
    rw [lastN_append_lastN, List.append_assoc, List.singleton_append, List.map_cons]

/-! ### Claims C3 and C4: save_message -/

/-- Claim C3, counterexample: three non-empty appends with maximum turn count
two produce a stored sequence of length two, so it cannot consist of all three
(the N most recent) appended turns. -/
theorem c3_claim_counterexample :
    (appendAll 2 1000 [] cePairs).length = 2 ∧
    appendAll 2 1000 [] cePairs ≠
      cePairs.map (fun p => Turn.mk p.2 (pyTruncate 1000 p.1)) := by
  constructor
  · decide
  · decide

/-- Claim C3 (amended): N appends of non-empty contents into an empty channel,
with N larger than a positive maximum turn count k, store exactly the k most
recent appended turns (each truncated at append time) in order, so the stored
length is exactly k. -/
theorem c3_fifo_eviction (k m : Nat) (ps : List (List Char × List Char))
    (hk : 1 ≤ k) (hne : ∀ p ∈ ps, pyStrip p.1 ≠ []) (hlen : k < ps.length) :
    appendAll k m [] ps = lastN k (ps.map (fun p => Turn.mk p.2 (pyTruncate m p.1))) ∧
    (appendAll k m [] ps).length = k := by
  have h := appendAll_eq_lastN k m hk ps [] (by rw [List.length_nil]; omega) hne
  rw [List.nil_append] at h
  refine ⟨h, ?_⟩
  rw [h, lastN, List.length_drop, List.length_map]
  omega

/-- Witness for C3: the three appends with k = 2 yield the two most recent
turns and stored length two. -/
theorem c3_fifo_eviction_witness :
    appendAll 2 1000 [] cePairs =
      lastN 2 (cePairs.map (fun p => Turn.mk p.2 (pyTruncate 1000 p.1))) ∧
    (appendAll 2 1000 [] cePairs).length = 2 :=
  c3_fifo_eviction 2 1000 cePairs (by omega) (by decide) (by decide)

/-- Claim C4, counterexample: with the cap configured to 0, a two-character
content exceeds the cap yet is stored whole (the Python slice with negative
zero start keeps everything), so the stored content is not the suffix of
length exactly the cap. -/
theorem c4_claim_counterexample :
    0 < ("ab".toList).length ∧
    (save_message 500 0 [] ("ab".toList) ("user".toList)).getLast? =
      some (Turn.mk ("user".toList) ("ab".toList)) ∧
    ("ab".toList) ≠ ("ab".toList).drop (("ab".toList).length - 0) := by
  refine ⟨by decide, by decide, by decide⟩

/-- Claim C4 (amended): for a positive per-turn cap m, appending a non-empty
content longer than m stores as the most recent turn exactly the length-m
suffix of that content. -/
theorem c4_suffix_truncation (k m : Nat) (s : List Turn) (msg role : List Char)
    (hm : 1 ≤ m) (hmsg : pyStrip msg ≠ []) (hlen : m < msg.length) :
    (save_message k m s msg role).getLast? =
      some (Turn.mk role (msg.drop (msg.length - m))) ∧
    (msg.drop (msg.length - m)).length = m := by
  constructor
  · rw [save_message, if_neg hmsg, List.getLast?_concat]
    rw [pyTruncate, if_pos hlen, if_neg (by omega : ¬m = 0)]
  · rw [List.length_drop]
    omega

/-- Witness for C4: cap 3 on an 11-character content stores the 3-character
suffix. -/
theorem c4_suffix_truncation_witness :
    ((save_message 500 3 [] ("hello world".toList) ("user".toList)).getLast? =
      some (Turn.mk ("user".toList)
        (("hello world".toList).drop (("hello world".toList).length - 3)))) ∧
    (("hello world".toList).drop (("hello world".toList).length - 3)).length = 3 :=
  c4_suffix_truncation 500 3 [] ("hello world".toList) ("user".toList)
    (by omega) (by decide) (by decide)

/-! ### Claim C5: the context trimmer -/

theorem jsonLen_ge_two (l : List Turn) : 2 ≤ jsonLen l := by
  cases l with
  | nil => exact le_refl 2
  | cons t ts =>
    rw [jsonLen]
    · omega
    · intro h
      exact List.noConfusion h

theorem trimLoop_suffix (b : Nat) : ∀ l : List Turn, trimLoop b l <:+ l := by
  intro l
  induction l with
  | nil => exact List.suffix_refl []
  | cons t ts ih =>
    rw [trimLoop]
    split
    · exact ih.trans (List.suffix_cons t ts)
    · exact List.suffix_cons t ts

theorem trimLoop_bound (b : Nat) :
    ∀ l : List Turn, jsonLen (trimLoop b l) ≤ b ∨ trimLoop b l = [] := by
  intro l
  induction l with
  | nil =>
    right
    rw [trimLoop]
  | cons t ts ih =>
    rw [trimLoop]
    split
    · exact ih
    · next h => exact Or.inl (by omega)

/-- Claim C5: the trimmed context is a contiguous order-preserving suffix of
the loaded turn list whose serialized size fits the byte budget ctx*4, or the
empty list when no suffix fits (possible only for budgets below two, since the
empty list serializes to two characters). -/
theorem c5_trimmer_suffix (ctxLen : Nat) (msgs : List Turn) :
    trimContext (ctxLen * 4) msgs <:+ msgs ∧
    (jsonLen (trimContext (ctxLen * 4) msgs) ≤ ctxLen * 4 ∨
      (trimContext (ctxLen * 4) msgs = [] ∧
        ∀ s, s <:+ msgs → ctxLen * 4 < jsonLen s)) := by
  rw [trimContext]
  split
  · refine ⟨trimLoop_suffix _ msgs, ?_⟩
    rcases trimLoop_bound (ctxLen * 4) msgs with hb | hb
    · exact Or.inl hb
    · by_cases h2 : ctxLen * 4 < 2
      · exact Or.inr ⟨hb, fun s _ => lt_of_lt_of_le h2 (jsonLen_ge_two s)⟩
      · left
        rw [hb]
        have hj : jsonLen ([] : List Turn) = 2 := rfl
        omega
  · next hle =>
    exact ⟨List.suffix_refl msgs, Or.inl (by omega)⟩

/-- Witness for C5: budget zero on a one-turn list trims to the empty list and
indeed no suffix (not even the empty one) fits the budget. -/
theorem c5_trimmer_suffix_witness :
    trimContext (0 * 4) [Turn.mk ("user".toList) ("x".toList)] <:+
      [Turn.mk ("user".toList) ("x".toList)] ∧
    trimContext (0 * 4) [Turn.mk ("user".toList) ("x".toList)] = [] ∧
    0 * 4 < jsonLen ([] : List Turn) :=
  ⟨(c5_trimmer_suffix 0 [Turn.mk ("user".toList) ("x".toList)]).1,
   ((c5_trimmer_suffix 0 [Turn.mk ("user".toList) ("x".toList)]).2.resolve_left (by decide)).1,
   ((c5_trimmer_suffix 0 [Turn.mk ("user".toList) ("x".toList)]).2.resolve_left
     (by decide)).2 [] List.nil_suffix⟩

/-! ### Claims C6 and C7: the reset command -/

theorem setStore_same (ch : List Char) (v : List Turn) (st : Store) :
    setStore ch v st ch = v := if_pos rfl

theorem mem_dropWhile_of_neg (p : Char → Bool) :
    ∀ (l : List Char) (c : Char), c ∈ l → p c = false → c ∈ l.dropWhile p := by
  intro l
  induction l with
  | nil =>
    intro c hc _
    exact absurd hc (List.not_mem_nil c)
  | cons a t ih =>
    intro c hc hp
    rw [List.dropWhile_cons]
    split
    · next hpa =>
      rcases List.mem_cons.1 hc with rfl | hc2
      · rw [hp] at hpa
        exact Bool.noConfusion hpa
      · exact ih c hc2 hp
    · exact hc

theorem pyStrip_ne_nil (l : List Char) (c : Char) (hc : c ∈ l) (hp : isSpaceChar c = false) :
    pyStrip l ≠ [] := by
  unfold pyStrip
  intro h
  have h1 : c ∈ l.dropWhile isSpaceChar := mem_dropWhile_of_neg _ l c hc hp
  have h2 : c ∈ (l.dropWhile isSpaceChar).reverse := List.mem_reverse.2 h1
  have h3 : c ∈ (l.dropWhile isSpaceChar).reverse.dropWhile isSpaceChar :=
    mem_dropWhile_of_neg _ _ c h2 hp
  have h4 : c ∈ ((l.dropWhile isSpaceChar).reverse.dropWhile isSpaceChar).reverse :=
    List.mem_reverse.2 h3
  rw [h] at h4
  exact List.not_mem_nil c h4

theorem greeting_strip_ne_nil (guild : Option (List Char)) :
    pyStrip (greetingOf guild) ≠ [] := by
  apply pyStrip_ne_nil _ '*'
  · rw [greetingOf]
    apply List.mem_append.2
    left
    apply List.mem_append.2
    left
    decide
  · decide

/-- Claim C6: when an admin id is configured and the requester differs, the
reset command performs no store mutation and returns the denial reply. -/
theorem c6_reset_denied (k m : Nat) (adminId requesterId : List Char)
    (chan guild : Option (List Char)) (st : Store)
    (hconf : adminId ≠ []) (hne : requesterId ≠ adminId) :
    reset_command k m adminId requesterId chan guild st = (st, ResetReply.denied) := by
  rw [reset_command.eq_def, if_pos ⟨hconf, hne⟩]

/-- Witness for C6: admin 42 configured, requester 7 denied, store untouched. -/
theorem c6_reset_denied_witness :
    reset_command 500 1000 ("42".toList) ("7".toList) (some ("1".toList)) none emptyStore =
      (emptyStore, ResetReply.denied) :=
  c6_reset_denied 500 1000 ("42".toList) ("7".toList) (some ("1".toList)) none emptyStore
    (by decide) (by decide)

/-- Claim C7: a reset by the admin (or with no admin configured) leaves the
channel holding exactly the seed greeting as one assistant turn and returns
success; stated for a positive maximum turn count and a per-turn cap at least
the greeting length (the default cap 1000 always suffices). -/
theorem c7_reset_seeds (k m : Nat) (adminId requesterId : List Char)
    (ch : List Char) (guild : Option (List Char)) (st : Store)
    (hauth : adminId = [] ∨ requesterId = adminId) (hk : 1 ≤ k)
    (hfit : (greetingOf guild).length ≤ m) :
    (reset_command k m adminId requesterId (some ch) guild st).1 ch =
      [Turn.mk assistantRole (greetingOf guild)] ∧
    (reset_command k m adminId requesterId (some ch) guild st).2 = ResetReply.success := by
  have hneg : ¬(adminId ≠ [] ∧ requesterId ≠ adminId) := by
    rcases hauth with h | h
    · exact fun hand => hand.1 h
    · exact fun hand => hand.2 h
  have h1 : reset_command k m adminId requesterId (some ch) guild st =
      (saveTo k m ch (greetingOf guild) assistantRole (flush_channel ch st),
        ResetReply.success) := by
    rw [reset_command.eq_def, if_neg hneg]
  rw [h1]
  refine ⟨?_, rfl⟩
  show saveTo k m ch (greetingOf guild) assistantRole (flush_channel ch st) ch =
    [Turn.mk assistantRole (greetingOf guild)]
  have hfl : flush_channel ch st ch = [] := setStore_same ch [] st
  rw [saveTo, setStore_same, hfl]
  rw [save_message, if_neg (greeting_strip_ne_nil guild), popWhile, List.nil_append]
  rw [pyTruncate, if_neg (by omega : ¬(m < (greetingOf guild).length))]

/-- Witness for C7: admin resets channel 1; the stored session is exactly the
seeded assistant greeting and the reply is success. -/
theorem c7_reset_seeds_witness :
    (reset_command 500 1000 ("42".toList) ("42".toList) (some ("1".toList))
      (some ("g".toList)) emptyStore).1 ("1".toList) =
      [Turn.mk assistantRole (greetingOf (some ("g".toList)))] ∧
    (reset_command 500 1000 ("42".toList) ("42".toList) (some ("1".toList))
      (some ("g".toList)) emptyStore).2 = ResetReply.success :=
  c7_reset_seeds 500 1000 ("42".toList) ("42".toList) ("1".toList) (some ("g".toList))
    emptyStore (Or.inr rfl) (by omega) (by decide)

/-! ### Claims C8 and C9: the chat orchestrator -/

theorem chat_ok_case (k m ctxLen : Nat) (ch : List Char) (st : Store) (c : List Char)
    (res : Store × List Char)
    (h : res = if c = [] then (st, fallbackMsg) else (saveTo k m ch c assistantRole st, c)) :
    (res.1 = st ∨ ∃ d, d ≠ [] ∧ res.1 = saveTo k m ch d assistantRole st) ∧
    (c.isEmpty = true → res.1 = st) := by
  subst h
  by_cases hc : c = []
  · rw [if_pos hc]
    exact ⟨Or.inl rfl, fun _ => rfl⟩
  · rw [if_neg hc]
    refine ⟨Or.inr ⟨c, hc, rfl⟩, fun hemp => ?_⟩
    rw [List.isEmpty_iff] at hemp
    exact absurd hemp hc

/-- Claim C8: one chat invocation appends at most one turn, always with the
assistant role, and appends nothing at all when the backend call failed or
returned an empty result — including the single-shot fallback taken after a
TypeError from the streaming call shape. -/
theorem c8_at_most_one_append (k m ctxLen : Nat) (ch : List Char) (b : Backend) (st : Store) :
    ((chat k m ctxLen ch b st).1 = st ∨
      ∃ c, c ≠ [] ∧ (chat k m ctxLen ch b st).1 = saveTo k m ch c assistantRole st) ∧
    (backendEmptyOrFailed b = true → (chat k m ctxLen ch b st).1 = st) := by
  cases b with
  | ollamaStream so fb =>
    cases so with
    | parts cs =>
      have h := chat_ok_case k m ctxLen ch st cs.flatten
        (chat k m ctxLen ch (Backend.ollamaStream (StreamOutcome.parts cs) fb) st) rfl
      exact ⟨h.1, fun hf => h.2 (by rwa [backendEmptyOrFailed] at hf)⟩
    | typeErrorMid bf =>
      cases fb with
      | ok c =>
        have h := chat_ok_case k m ctxLen ch st c
          (chat k m ctxLen ch
            (Backend.ollamaStream (StreamOutcome.typeErrorMid bf) (CallOutcome.ok c)) st) rfl
        exact ⟨h.1, fun hf => h.2 (by rwa [backendEmptyOrFailed] at hf)⟩
      | failed => exact ⟨Or.inl rfl, fun _ => rfl⟩
    | otherErrorMid bf => exact ⟨Or.inl rfl, fun _ => rfl⟩
  | ollamaSingle co =>
    cases co with
    | ok c =>
      have h := chat_ok_case k m ctxLen ch st c
        (chat k m ctxLen ch (Backend.ollamaSingle (CallOutcome.ok c)) st) rfl
      exact ⟨h.1, fun hf => h.2 (by rwa [backendEmptyOrFailed] at hf)⟩
    | failed => exact ⟨Or.inl rfl, fun _ => rfl⟩
  | openaiCall co =>
    cases co with
    | ok c =>
      have h := chat_ok_case k m ctxLen ch st c
        (chat k m ctxLen ch (Backend.openaiCall (CallOutcome.ok c)) st) rfl
      exact ⟨h.1, fun hf => h.2 (by rwa [backendEmptyOrFailed] at hf)⟩
    | failed => exact ⟨Or.inl rfl, fun _ => rfl⟩

/-- Witness for C8: a failed openai-compatible call leaves the store
unchanged. -/
theorem c8_at_most_one_append_witness :
    (chat 500 1000 2048 ("1".toList) (Backend.openaiCall CallOutcome.failed) emptyStore).1 =
      emptyStore :=
  (c8_at_most_one_append 500 1000 2048 ("1".toList) (Backend.openaiCall CallOutcome.failed)
    emptyStore).2 (by decide)

/-- Claim C9: whenever the backend call fails or yields an empty result, chat
returns exactly the fixed fallback phrase (the raw error is never returned). -/
theorem c9_fallback_on_failure (k m ctxLen : Nat) (ch : List Char) (b : Backend) (st : Store)
    (hf : backendEmptyOrFailed b = true) :
    (chat k m ctxLen ch b st).2 = fallbackMsg := by
  cases b with
  | ollamaStream so fb =>
    cases so with
    | parts cs =>
      rw [backendEmptyOrFailed, List.isEmpty_iff] at hf
      simp [chat, hf]
    | typeErrorMid bf =>
      cases fb with
      | ok c =>
        rw [backendEmptyOrFailed, List.isEmpty_iff] at hf
        simp [chat, hf]
      | failed => rfl
    | otherErrorMid bf => rfl
  | ollamaSingle co =>
    cases co with
    | ok c =>
      rw [backendEmptyOrFailed, List.isEmpty_iff] at hf
      simp [chat, hf]
    | failed => rfl
  | openaiCall co =>
    cases co with
    | ok c =>
      rw [backendEmptyOrFailed, List.isEmpty_iff] at hf
      simp [chat, hf]
    | failed => rfl

/-- Witness for C9: the streaming call raises TypeError mid-stream and the
single-shot fallback returns an empty content; the reply is the fallback
phrase. -/
theorem c9_fallback_on_failure_witness :
    (chat 500 1000 2048 ("1".toList)
      (Backend.ollamaStream (StreamOutcome.typeErrorMid [("x".toList)]) (CallOutcome.ok []))
      emptyStore).2 = fallbackMsg :=
  c9_fallback_on_failure 500 1000 2048 ("1".toList)
    (Backend.ollamaStream (StreamOutcome.typeErrorMid [("x".toList)]) (CallOutcome.ok []))
    emptyStore (by decide)

/-! ### Claim C10: the legacy RESET text from a non-admin -/

theorem on_message_denial_events (cfg : BotCfg) (mc : MsgCtx) (b : Backend) (st : Store)
    (hready : mc.ready = true) (hchan : mc.hasChannel = true)
    (hfilter : cfg.chatChannelId = [] ∨ mc.channelId = cfg.chatChannelId)
    (hself : mc.authorIsSelf = false) (hdm : mc.isDM = false)
    (hgate : gateOf mc = false ∨ mc.randomSkip = false)
    (hcontent : processedContent cfg mc = resetWord)
    (hadmin : mc.authorId ≠ cfg.adminId) :
    (on_message cfg mc b st).2 =
      (if gateOf mc
        then [Event.savedEv mc.channelId (fmtMessage mc mc.contentRaw) userRole] else []) ++
      [Event.savedEv mc.channelId (fmtMessage mc (denialText mc.authorName)) userRole,
        Event.wroteEv (chat cfg.k cfg.m cfg.ctxLen mc.channelId b
          (saveTo cfg.k cfg.m mc.channelId (fmtMessage mc (denialText mc.authorName)) userRole
            (if gateOf mc
              then saveTo cfg.k cfg.m mc.channelId (fmtMessage mc mc.contentRaw) userRole st
              else st))).2] := by
  have hfneg : ¬(cfg.chatChannelId ≠ [] ∧ mc.channelId ≠ cfg.chatChannelId) := by
    rcases hfilter with h | h
    · exact fun hand => hand.1 h
    · exact fun hand => hand.2 h
  have hand : (gateOf mc && mc.randomSkip) = false := by
    rcases hgate with h | h
    · rw [h, Bool.false_and]
    · rw [h, Bool.and_false]
  have hne : processedContent cfg mc ≠ [] := by
    rw [hcontent]
    intro hh
    exact List.noConfusion hh
  have hnadmin : ¬(processedContent cfg mc = resetWord ∧ mc.authorId = cfg.adminId) :=
    fun hx => hadmin hx.2
  have hrepl : (if processedContent cfg mc = resetWord ∧ mc.authorId ≠ cfg.adminId
      then denialText mc.authorName else processedContent cfg mc) = denialText mc.authorName :=
    if_pos ⟨hcontent, hadmin⟩
  simp only [on_message, hready, hchan, hself, hdm, Bool.not_true, Bool.false_eq_true,
    if_false, if_neg hfneg, hand, if_neg hne, if_neg hnadmin, hrepl]

/-- Claim C10: a guild message processed to exactly RESET from a non-admin
author does not flush the channel session; the turn content is replaced by the
author-name denial text, that replaced turn is saved as a user turn, and a
backend response is generated and written for it. -/
theorem c10_reset_denial_turn (cfg : BotCfg) (mc : MsgCtx) (b : Backend) (st : Store)
    (hready : mc.ready = true) (hchan : mc.hasChannel = true)
    (hfilter : cfg.chatChannelId = [] ∨ mc.channelId = cfg.chatChannelId)
    (hself : mc.authorIsSelf = false) (hdm : mc.isDM = false)
    (hgate : gateOf mc = false ∨ mc.randomSkip = false)
    (hcontent : processedContent cfg mc = resetWord)
    (hadmin : mc.authorId ≠ cfg.adminId) :
    (∀ c, Event.flushedEv c ∉ (on_message cfg mc b st).2) ∧
    Event.savedEv mc.channelId (fmtMessage mc (denialText mc.authorName)) userRole ∈
      (on_message cfg mc b st).2 ∧
    ∃ rep, Event.wroteEv rep ∈ (on_message cfg mc b st).2 := by
  rw [on_message_denial_events cfg mc b st hready hchan hfilter hself hdm hgate hcontent hadmin]
  refine ⟨?_, ?_, ?_⟩
  · intro c hmem
    rcases List.mem_append.1 hmem with h1 | h2
    · by_cases hg : gateOf mc = true
      · rw [if_pos hg] at h1
        rw [List.mem_singleton] at h1
        exact Event.noConfusion h1
      · rw [if_neg hg] at h1
        exact List.not_mem_nil _ h1
    · rcases List.mem_cons.1 h2 with h3 | h4
      · exact Event.noConfusion h3
      · rcases List.mem_cons.1 h4 with h5 | h6
        · exact Event.noConfusion h5
        · exact List.not_mem_nil _ h6
  · exact List.mem_append.2 (Or.inr (List.mem_cons_self _ _))
  · exact ⟨_, List.mem_append.2 (Or.inr (List.mem_cons_of_mem _ (List.mem_cons_self _ _)))⟩

/-- Witness for C10: a concrete RESET message from user 7 with admin 42: the
channel is not flushed and the denial turn is saved. -/
theorem c10_reset_denial_turn_witness :
    (Event.flushedEv ("1".toList) ∉
      (on_message ceCfg ceMsg (Backend.ollamaSingle (CallOutcome.ok ("hi".toList)))
        emptyStore).2) ∧
    Event.savedEv ceMsg.channelId (fmtMessage ceMsg (denialText ceMsg.authorName)) userRole ∈
      (on_message ceCfg ceMsg (Backend.ollamaSingle (CallOutcome.ok ("hi".toList)))
        emptyStore).2 :=
  ⟨(c10_reset_denial_turn ceCfg ceMsg _ _ rfl rfl (Or.inl rfl) rfl rfl (Or.inr rfl)
      (by decide) (by decide)).1 ("1".toList),
   (c10_reset_denial_turn ceCfg ceMsg _ _ rfl rfl (Or.inl rfl) rfl rfl (Or.inr rfl)
      (by decide) (by decide)).2.1⟩

end Discollama
